import Mathlib

/-!
Verification development for the trading-suite repository.

Part 1 embeds the trade-analytics function `computeStats` from
`frontend/src/utils/tradeStats.ts`.  JavaScript numbers are modelled as
exact rationals (`ℚ`); timestamps are integers (milliseconds).  The two
risk-adjusted measures `sharpe`/`sortino` involve square roots and are
therefore real-valued; every other field is rational and computable.

Part 2 models the fill-aggregation pass (`trade_processor`) whose
implementation file is not part of the provided sources; it is modelled
from the specification and the pseudocode in `PLAN.md` (Step 1.3).
-/

namespace TradingSuite

inductive Side where
  | B : Side
  | A : Side
deriving DecidableEq, Repr

/-- The `Trade` record of `frontend/src/types.ts`.  Numeric fields are
rationals, nullable fields are `Option`. -/
structure Trade where
  id : ℕ
  wallet : String
  coin : String
  side : Side
  entry_px : ℚ
  exit_px : Option ℚ
  size : ℚ
  pnl : ℚ
  fees : ℚ
  open_time : ℤ
  close_time : Option ℤ
  hold_ms : Option ℚ
  mae : Option ℚ
  mfe : Option ℚ
  fill_ids : String
deriving DecidableEq, Repr

/-- The `AnalyticsStats` record of `tradeStats.ts`.  `wins`, `losses` and
the streak/count fields are array lengths, hence naturals. -/
structure AnalyticsStats where
  netPnl : ℚ
  realizedPnl : ℚ
  totalFees : ℚ
  winRate : ℚ
  wins : ℕ
  losses : ℕ
  avgWin : ℚ
  avgLoss : ℚ
  profitFactor : ℚ
  avgRR : ℚ
  expectancy : ℚ
  sharpe : ℝ
  sortino : ℝ
  maxDrawdown : ℚ
  avgHoldMs : ℚ
  longCount : ℕ
  shortCount : ℕ
  longPnl : ℚ
  shortPnl : ℚ
  bestTrade : ℚ
  worstTrade : ℚ
  longestWinStreak : ℕ
  longestLossStreak : ℕ
  avgMAE : ℚ
  avgMFE : ℚ

/-! Each local constant of `computeStats` becomes a top-level definition,
named after the source local, suffixed `Of`. -/

/-- Source: `trades.filter(t => t.pnl > 0)` (line 33). -/
def winsOf (trades : List Trade) : List Trade :=
  trades.filter (fun t => decide (0 < t.pnl))

/-- Source: `trades.filter(t => t.pnl < 0)` (line 34). -/
def lossesOf (trades : List Trade) : List Trade :=
  trades.filter (fun t => decide (t.pnl < 0))

/-- Source: `trades.reduce((s, t) => s + t.pnl, 0)` (line 35). -/
def totalPnlOf (trades : List Trade) : ℚ :=
  trades.foldl (fun s t => s + t.pnl) 0

/-- Source: `trades.reduce((s, t) => s + t.fees, 0)` (line 36). -/
def totalFeesOf (trades : List Trade) : ℚ :=
  trades.foldl (fun s t => s + t.fees) 0

/-- Source: `totalPnl - totalFees` (line 37). -/
def netPnlOf (trades : List Trade) : ℚ := totalPnlOf trades - totalFeesOf trades

/-- Source: `trades.length ? (wins.length / trades.length) * 100 : 0` (line 38). -/
def winRateOf (trades : List Trade) : ℚ :=
  if trades.length = 0 then 0
  else ((winsOf trades).length : ℚ) / (trades.length : ℚ) * 100

/-- Source: `wins.length ? wins.reduce((s, t) => s + t.pnl, 0) / wins.length : 0` (line 39). -/
def avgWinOf (trades : List Trade) : ℚ :=
  if (winsOf trades).length = 0 then 0
  else (winsOf trades).foldl (fun s t => s + t.pnl) 0 / ((winsOf trades).length : ℚ)

/-- Source: `losses.length ? Math.abs(losses.reduce((s, t) => s + t.pnl, 0) / losses.length) : 0` (line 40). -/
def avgLossOf (trades : List Trade) : ℚ :=
  if (lossesOf trades).length = 0 then 0
  else |(lossesOf trades).foldl (fun s t => s + t.pnl) 0 / ((lossesOf trades).length : ℚ)|

/-- Source: `wins.reduce((s, t) => s + t.pnl, 0)` (line 41). -/
def totalWinPnlOf (trades : List Trade) : ℚ :=
  (winsOf trades).foldl (fun s t => s + t.pnl) 0

/-- Source: `Math.abs(losses.reduce((s, t) => s + t.pnl, 0))` (line 42). -/
def totalLossPnlOf (trades : List Trade) : ℚ :=
  |(lossesOf trades).foldl (fun s t => s + t.pnl) 0|

/-- Source: `totalLossPnl > 0 ? totalWinPnl / totalLossPnl : 0` (line 43). -/
def profitFactorOf (trades : List Trade) : ℚ :=
  if 0 < totalLossPnlOf trades then totalWinPnlOf trades / totalLossPnlOf trades else 0

/-- Source: `avgLoss > 0 ? avgWin / avgLoss : 0` (line 44). -/
def avgRROf (trades : List Trade) : ℚ :=
  if 0 < avgLossOf trades then avgWinOf trades / avgLossOf trades else 0

/-- Source: `(winRate / 100) * avgWin - (1 - winRate / 100) * avgLoss` (line 45). -/
def expectancyOf (trades : List Trade) : ℚ :=
  (winRateOf trades / 100) * avgWinOf trades
    - (1 - winRateOf trades / 100) * avgLossOf trades

/-- The calendar-day bucket of a trade:
`new Date(t.open_time).toISOString().slice(0, 10)` groups two timestamps
together iff they fall on the same UTC day, i.e. iff
`⌊open_time / 86400000⌋` agrees (floor division on milliseconds). -/
def dayKey (t : Trade) : ℤ := Int.fdiv t.open_time 86400000

/-- Source: `dailyMap[k] = (dailyMap[k] || 0) + v`: update the value stored at key
`k` in place, or append a new binding; JavaScript objects preserve
first-insertion order of keys. -/
def addDaily : List (ℤ × ℚ) → ℤ → ℚ → List (ℤ × ℚ)
  | [], k, v => [(k, v)]
  | (k', v') :: rest, k, v =>
      if k' = k then (k', v' + v) :: rest else (k', v') :: addDaily rest k v

/-- The `dailyMap` object built on lines 48–52 (raw `t.pnl` per trade). -/
def dailyMapOf (trades : List Trade) : List (ℤ × ℚ) :=
  trades.foldl (fun m t => addDaily m (dayKey t) t.pnl) []

/-- Source: `Object.values(dailyMap)` (line 53). -/
def dailyRetsOf (trades : List Trade) : List ℚ :=
  (dailyMapOf trades).map Prod.snd

/-- Source: `dailyRets.length ? dailyRets.reduce((s, v) => s + v, 0) / dailyRets.length : 0` (line 54). -/
def meanRetOf (trades : List Trade) : ℚ :=
  if (dailyRetsOf trades).length = 0 then 0
  else (dailyRetsOf trades).foldl (fun s v => s + v) 0 / ((dailyRetsOf trades).length : ℚ)

/-- The radicand of line 55.  When `dailyRets` is empty the source divides
0 by 0 producing `NaN`, and `Math.sqrt(NaN) || 1` yields 1; here `0 / 0 = 0`
and the `= 0` guard of `stdRetOf` likewise yields 1. -/
def varRetOf (trades : List Trade) : ℚ :=
  (dailyRetsOf trades).foldl (fun s v => s + (v - meanRetOf trades) ^ 2) 0
    / ((dailyRetsOf trades).length : ℚ)

/-- Source: `Math.sqrt(...) || 1` (line 55). -/
noncomputable def stdRetOf (trades : List Trade) : ℝ :=
  if Real.sqrt (varRetOf trades : ℝ) = 0 then 1 else Real.sqrt (varRetOf trades : ℝ)

/-- Source: `(meanRet / stdRet) * Math.sqrt(252)` (line 56). -/
noncomputable def sharpeOf (trades : List Trade) : ℝ :=
  ((meanRetOf trades : ℝ) / stdRetOf trades) * Real.sqrt 252

/-- Source: `dailyRets.filter(v => v < 0)` (line 57). -/
def downRetsOf (trades : List Trade) : List ℚ :=
  (dailyRetsOf trades).filter (fun v => decide (v < 0))

/-- Radicand of line 58 (note: denominator is `dailyRets.length`). -/
def downVarOf (trades : List Trade) : ℚ :=
  (downRetsOf trades).foldl (fun s v => s + v ^ 2) 0 / ((dailyRetsOf trades).length : ℚ)

/-- Source: `Math.sqrt(...) || 1` (line 58). -/
noncomputable def downStdOf (trades : List Trade) : ℝ :=
  if Real.sqrt (downVarOf trades : ℝ) = 0 then 1 else Real.sqrt (downVarOf trades : ℝ)

/-- Source: `(meanRet / downStd) * Math.sqrt(252)` (line 59). -/
noncomputable def sortinoOf (trades : List Trade) : ℝ :=
  ((meanRetOf trades : ℝ) / downStdOf trades) * Real.sqrt 252

/-- Stable insertion of a trade into a list sorted ascending by
`open_time`: placed after every element whose `open_time` is `≤` its own. -/
def insertByTime (t : Trade) : List Trade → List Trade
  | [] => [t]
  | x :: xs => if t.open_time < x.open_time then t :: x :: xs else x :: insertByTime t xs

/-- Source: `[...trades].sort((a, b) => a.open_time - b.open_time)` (line 62): a
stable ascending sort by `open_time`, modelled by stable insertion sort
(JavaScript `Array.prototype.sort` is stable). -/
def sortByOpenTime (trades : List Trade) : List Trade :=
  trades.foldl (fun acc t => insertByTime t acc) []

/-- One iteration of the drawdown loop (lines 64–69); state is
`(peak, maxDD, runPnl)`. -/
def ddStep : ℚ × ℚ × ℚ → Trade → ℚ × ℚ × ℚ
  | (peak, maxDD, runPnl), t =>
    let run' := runPnl + (t.pnl - t.fees)
    let peak' := if peak < run' then run' else peak
    let dd := peak' - run'
    (peak', if maxDD < dd then dd else maxDD, run')

/-- The `maxDD` variable after the loop of lines 62–69. -/
def maxDrawdownOf (trades : List Trade) : ℚ :=
  ((sortByOpenTime trades).foldl ddStep (0, 0, 0)).2.1

/-- Source: `trades.filter(t => t.hold_ms && t.hold_ms > 0).map(t => t.hold_ms!)`
(line 72); `null` and `0` are both excluded (`0` is falsy and fails `> 0`). -/
def holdsOf (trades : List Trade) : List ℚ :=
  (trades.filter (fun t =>
    match t.hold_ms with
    | some h => decide (0 < h)
    | none => false)).map (fun t => t.hold_ms.getD 0)

/-- Source: `holds.length ? holds.reduce((s, v) => s + v, 0) / holds.length : 0` (line 73). -/
def avgHoldMsOf (trades : List Trade) : ℚ :=
  if (holdsOf trades).length = 0 then 0
  else (holdsOf trades).foldl (fun s v => s + v) 0 / ((holdsOf trades).length : ℚ)

/-- Source: `trades.filter(t => t.side === 'B').length` (line 76). -/
def longCountOf (trades : List Trade) : ℕ :=
  (trades.filter (fun t => decide (t.side = Side.B))).length

/-- Source: `trades.filter(t => t.side === 'A').length` (line 77). -/
def shortCountOf (trades : List Trade) : ℕ :=
  (trades.filter (fun t => decide (t.side = Side.A))).length

/-- Line 78. -/
def longPnlOf (trades : List Trade) : ℚ :=
  (trades.filter (fun t => decide (t.side = Side.B))).foldl (fun s t => s + t.pnl) 0

/-- Line 79. -/
def shortPnlOf (trades : List Trade) : ℚ :=
  (trades.filter (fun t => decide (t.side = Side.A))).foldl (fun s t => s + t.pnl) 0

/-- One iteration of the streak loop (lines 83–86); state is
`(lws, lls, cw, cl)`.  Note the `else` branch: any non-positive pnl —
including exactly 0 — extends the loss streak. -/
def streakStep : ℕ × ℕ × ℕ × ℕ → Trade → ℕ × ℕ × ℕ × ℕ
  | (lws, lls, cw, cl), t =>
    if 0 < t.pnl then
      let cw' := cw + 1
      (if lws < cw' then cw' else lws, lls, cw', 0)
    else
      let cl' := cl + 1
      (lws, if lls < cl' then cl' else lls, 0, cl')

/-- The `(lws, lls, cw, cl)` state after the loop of lines 82–86. -/
def streaksOf (trades : List Trade) : ℕ × ℕ × ℕ × ℕ :=
  (sortByOpenTime trades).foldl streakStep (0, 0, 0, 0)

/-- Source: `trades.filter(t => t.mae != null && t.mae > 0)` (line 89). -/
def maeTradesOf (trades : List Trade) : List Trade :=
  trades.filter (fun t =>
    match t.mae with
    | some m => decide (0 < m)
    | none => false)

/-- Source: `trades.filter(t => t.mfe != null && t.mfe > 0)` (line 90). -/
def mfeTradesOf (trades : List Trade) : List Trade :=
  trades.filter (fun t =>
    match t.mfe with
    | some m => decide (0 < m)
    | none => false)

/-- Line 91. -/
def avgMAEOf (trades : List Trade) : ℚ :=
  if (maeTradesOf trades).length = 0 then 0
  else (maeTradesOf trades).foldl (fun s t => s + t.mae.getD 0) 0
        / ((maeTradesOf trades).length : ℚ)

/-- Line 92. -/
def avgMFEOf (trades : List Trade) : ℚ :=
  if (mfeTradesOf trades).length = 0 then 0
  else (mfeTradesOf trades).foldl (fun s t => s + t.mfe.getD 0) 0
        / ((mfeTradesOf trades).length : ℚ)

/-- Source: `Math.max(...)` over a non-empty list of rationals, 0 for the empty
list (matching the `wins.length ? ... : 0` guard at line 98). -/
def maxListQ : List ℚ → ℚ
  | [] => 0
  | x :: xs => xs.foldl max x

/-- Source: `Math.min(...)` over a non-empty list, 0 for the empty list (line 99). -/
def minListQ : List ℚ → ℚ
  | [] => 0
  | x :: xs => xs.foldl min x

/-- Source: `computeStats` of `tradeStats.ts` (lines 32–102). -/
noncomputable def computeStats (trades : List Trade) : AnalyticsStats :=
  { netPnl := netPnlOf trades
    realizedPnl := totalPnlOf trades
    totalFees := totalFeesOf trades
    winRate := winRateOf trades
    wins := (winsOf trades).length
    losses := (lossesOf trades).length
    avgWin := avgWinOf trades
    avgLoss := avgLossOf trades
    profitFactor := profitFactorOf trades
    avgRR := avgRROf trades
    expectancy := expectancyOf trades
    sharpe := sharpeOf trades
    sortino := sortinoOf trades
    maxDrawdown := maxDrawdownOf trades
    avgHoldMs := avgHoldMsOf trades
    longCount := longCountOf trades
    shortCount := shortCountOf trades
    longPnl := longPnlOf trades
    shortPnl := shortPnlOf trades
    bestTrade := maxListQ ((winsOf trades).map Trade.pnl)
    worstTrade := minListQ ((lossesOf trades).map Trade.pnl)
    longestWinStreak := (streaksOf trades).1
    longestLossStreak := (streaksOf trades).2.1
    avgMAE := avgMAEOf trades
    avgMFE := avgMFEOf trades }

/-- A default trade used to build concrete instances in witnesses. -/
def t0 : Trade :=
  { id := 0, wallet := "w", coin := "ETH", side := Side.B, entry_px := 0,
    exit_px := none, size := 1, pnl := 0, fees := 0, open_time := 0,
    close_time := none, hold_ms := none, mae := none, mfe := none,
    fill_ids := "" }

/-! ## Specification-side definitions

These formalise the spec's wording (not the source) and are compared with
the source-derived definitions above in refinement theorems. -/

/-- Spec wording for the win-rate claim: "the number of winning trades
divided by the total number of trades, 0 when the list is empty". -/
def winRateClaimed (trades : List Trade) : ℚ :=
  if trades.length = 0 then 0
  else (trades.countP (fun t => decide (0 < t.pnl)) : ℚ) / (trades.length : ℚ)

/-- First-occurrence deduplication, left to right. -/
def firstKeys (l : List ℤ) : List ℤ :=
  l.foldl (fun acc k => if k ∈ acc then acc else acc ++ [k]) []

/-- The daily sum, per the spec: over all trades falling on calendar day
`k`, sum the per-trade amount `f`. -/
def daySum (f : Trade → ℚ) (trades : List Trade) (k : ℤ) : ℚ :=
  ((trades.filter (fun t => decide (dayKey t = k))).map f).sum

/-- Spec wording: "bucket trades by calendar day of `openTime` into daily
sums" of the per-trade amount `f`, one bucket per distinct day. -/
def bucketRets (f : Trade → ℚ) (trades : List Trade) : List ℚ :=
  (firstKeys (trades.map dayKey)).map (daySum f trades)

/-- Arithmetic mean of a list of rationals, 0 for the empty list. -/
def meanSpec (rets : List ℚ) : ℚ :=
  if rets.length = 0 then 0 else rets.sum / (rets.length : ℚ)

/-- Population standard deviation of a list of rationals: square root of
the mean squared deviation from the mean. -/
noncomputable def psdSpec (rets : List ℚ) : ℝ :=
  Real.sqrt (((rets.map (fun v => (v - meanSpec rets) ^ 2)).sum / (rets.length : ℚ) : ℚ) : ℝ)

/-- Spec wording for Sharpe with per-trade amount `f`: mean and population
standard deviation of the daily sums, substituting 1 for a zero standard
deviation, then `mean / stddev × √252`. -/
noncomputable def sharpeSpec (f : Trade → ℚ) (trades : List Trade) : ℝ :=
  ((meanSpec (bucketRets f trades) : ℝ) /
      (if psdSpec (bucketRets f trades) = 0 then 1 else psdSpec (bucketRets f trades)))
    * Real.sqrt 252

/-- One step of a longest-run fold: extend the current run when `p`
holds, otherwise reset it; keep the best run length seen. -/
def runStep (p : α → Bool) : ℕ × ℕ → α → ℕ × ℕ :=
  fun st a => if p a then (st.1 + 1, max st.2 (st.1 + 1)) else (0, st.2)

/-- Longest run of consecutive elements satisfying `p`: fold carrying the
current run length and the best run length seen. -/
def longestRun (p : α → Bool) (l : List α) : ℕ :=
  (l.foldl (runStep p) ((0, 0) : ℕ × ℕ)).2

/-- Cumulative net pnl (pnl minus fees) of a list of trades. -/
def cumNet (l : List Trade) : ℚ := (l.map (fun t => t.pnl - t.fees)).sum

/-- Running peak of cumulative net pnl: the maximum of `cumNet` over all
prefixes of `l` (the empty prefix contributes the starting equity 0). -/
def peakSpec (l : List Trade) : ℚ := (l.inits.map cumNet).foldl max 0

/-- Spec wording for the maximum drawdown: the maximum over the sequence
of "running peak minus current cumulative net pnl". -/
def maxDrawdownSpec (l : List Trade) : ℚ :=
  (l.inits.map (fun p => peakSpec p - cumNet p)).foldl max 0

/-- The positive recorded excursions (`f` non-null and strictly positive)
of a trade list, in order. -/
def posExcursions (f : Trade → Option ℚ) (trades : List Trade) : List ℚ :=
  (trades.filterMap f).filter (fun m => decide (0 < m))

/-- Spec-side mean of the positive recorded excursions; 0 when none. -/
def avgPosExcursion (f : Trade → Option ℚ) (trades : List Trade) : ℚ :=
  if (posExcursions f trades).length = 0 then 0
  else (posExcursions f trades).sum / ((posExcursions f trades).length : ℚ)

/-! ## Part 2: the fill-aggregation pass

Modelled from the spec: the implementation file `trade_processor.py` is
not among the provided sources; only its design (spec §4.1 and the
pseudocode in `PLAN.md`, Step 1.3) is.  The definitions below follow that
pseudocode for a single instrument's fill stream (the algorithm runs
independently per coin). -/

/-- A fill's directional tag, derived from the exchange `dir` field:
`dir` starting with "Open" vs starting with "Close". -/
inductive FillDir where
  | openInc : FillDir
  | closeDec : FillDir
deriving DecidableEq, Repr

/-- Modelled from the spec: the `Fill` record (spec §3) restricted to the
fields the aggregation algorithm reads. -/
structure Fill where
  coin : String
  side : Side
  dir : FillDir
  px : ℚ
  sz : ℚ
  time : ℤ
  startPosition : ℚ
  closedPnl : ℚ
  fee : ℚ
deriving DecidableEq, Repr

/-- Modelled from the spec: the running accumulator of the aggregation
pass (spec §4.1): size-weighted entry/exit values, cumulative pnl and
fees, extreme prices seen, and the open timestamp. -/
structure TradeAcc where
  openTime : ℤ
  side : Side
  entryValue : ℚ
  entrySize : ℚ
  exitValue : ℚ
  exitSize : ℚ
  pnl : ℚ
  fees : ℚ
  mae : ℚ
  mfe : ℚ
deriving DecidableEq, Repr

/-- Modelled from the spec: a finalized round-trip trade as emitted by the
aggregation pass. -/
structure PTrade where
  side : Side
  entryPx : ℚ
  exitPx : ℚ
  size : ℚ
  pnl : ℚ
  fees : ℚ
  openTime : ℤ
  closeTime : ℤ
  holdMs : ℤ
  mae : ℚ
  mfe : ℚ
deriving DecidableEq, Repr

/-- The flatness epsilon: `abs(new_position) < 1e-9` in the pseudocode. -/
def eps : ℚ := 1 / 1000000000

/-- Source: `fill.sz if fill.side == 'B' else -fill.sz`. -/
def signedSz (f : Fill) : ℚ :=
  match f.side with
  | Side.B => f.sz
  | Side.A => -f.sz

/-- Source: `new_position = float(fill.startPosition) + (fill.sz if fill.side == 'B' else -fill.sz)`. -/
def newPosition (f : Fill) : ℚ := f.startPosition + signedSz f

/-- Modelled from the spec: refresh the running maximal fractional
excursions at a fill's price, measured against the *current* average
entry (`entryValue / entrySize`, refreshed each fill, since excursion is
measured against cost basis as it evolves).  For a long, a drop below
entry is adverse and a rise favorable; the convention inverts for a
short.  The running maxima start at 0, so both stay non-negative. -/
def trackExcursion (a : TradeAcc) (px : ℚ) : TradeAcc :=
  let entry := a.entryValue / a.entrySize
  let up := (px - entry) / entry
  let down := (entry - px) / entry
  match a.side with
  | Side.B => { a with mae := max a.mae down, mfe := max a.mfe up }
  | Side.A => { a with mae := max a.mae up, mfe := max a.mfe down }

/-- Modelled from the spec: start an accumulator on the first opening fill
(openTime, direction, first entry contribution; at this fill the price
equals the average entry, so both excursions start at 0). -/
def startAcc (f : Fill) : TradeAcc :=
  { openTime := f.time, side := f.side, entryValue := f.px * f.sz,
    entrySize := f.sz, exitValue := 0, exitSize := 0, pnl := 0,
    fees := f.fee, mae := 0, mfe := 0 }

/-- Modelled from the spec: fold a closing fill's pnl and fee into the
accumulator together with an exit contribution of size `sz` at the fill's
price, then refresh the excursions at that price. -/
def closeInto (a : TradeAcc) (f : Fill) (sz : ℚ) : TradeAcc :=
  trackExcursion
    { a with pnl := a.pnl + f.closedPnl,
             fees := a.fees + f.fee,
             exitValue := a.exitValue + f.px * sz,
             exitSize := a.exitSize + sz } f.px

/-- Modelled from the spec: the resulting position has crossed through
zero to the opposite side — a position flip. -/
def flipped (f : Fill) : Prop :=
  (0 < f.startPosition ∧ newPosition f < 0) ∨
    (f.startPosition < 0 ∧ 0 < newPosition f)

instance instDecFlipped (f : Fill) : Decidable (flipped f) :=
  inferInstanceAs (Decidable (_ ∨ _))

/-- Modelled from the spec: the fresh opposite-side accumulator a
position-flip fill opens for the residual size, at the fill's price and
timestamp (its direction is the sign of the resulting position, i.e. the
fill's own side); the fill's pnl and fee are attributed wholly to the
trade being closed. -/
def flipAcc (f : Fill) : TradeAcc :=
  { openTime := f.time, side := f.side,
    entryValue := f.px * |newPosition f|, entrySize := |newPosition f|,
    exitValue := 0, exitSize := 0, pnl := 0, fees := 0, mae := 0, mfe := 0 }

/-- Modelled from the spec: finalize an accumulator at time `t` —
size-weighted entry and exit prices, hold duration, and the tracked
running MAE/MFE. -/
def finalizeAcc (a : TradeAcc) (t : ℤ) : PTrade :=
  { side := a.side, entryPx := a.entryValue / a.entrySize,
    exitPx := a.exitValue / a.exitSize, size := a.entrySize,
    pnl := a.pnl, fees := a.fees, openTime := a.openTime, closeTime := t,
    holdMs := t - a.openTime, mae := a.mae, mfe := a.mfe }

/-- Modelled from the spec: one step of the aggregation pass over a single
instrument's fills (spec 4.1, PLAN.md Step 1.3).  State: the optional
active accumulator and the trades emitted so far.  An opening fill starts
or grows the accumulator; a closing fill with no accumulator is an orphan
and is skipped; a closing fill with an accumulator is flat when
`|new_position| < 1e-9` (finalize, clear); otherwise, if the position has
flipped sign, the closed portion `|startPosition|` is finalized and a
fresh opposite-side accumulator opens for the residual at this fill's
price and timestamp (exactly one fill produces a close and an open);
otherwise the trade stays open (partial close). -/
def processFill : Option TradeAcc × List PTrade → Fill → Option TradeAcc × List PTrade
  | (acc, out), f =>
    match f.dir with
    | FillDir.openInc =>
      match acc with
      | none => (some (startAcc f), out)
      | some a =>
          (some (trackExcursion
            { a with entryValue := a.entryValue + f.px * f.sz,
                     entrySize := a.entrySize + f.sz,
                     fees := a.fees + f.fee } f.px), out)
    | FillDir.closeDec =>
      match acc with
      | none => (none, out)
      | some a =>
          if |newPosition f| < eps then
            (none, out ++ [finalizeAcc (closeInto a f f.sz) f.time])
          else if flipped f then
            (some (flipAcc f),
              out ++ [finalizeAcc (closeInto a f |f.startPosition|) f.time])
          else
            (some (closeInto a f f.sz), out)

/-- Run the aggregation pass over a single instrument's fill stream. -/
def runFills (fills : List Fill) : Option TradeAcc × List PTrade :=
  fills.foldl processFill (none, [])

/-- The finalized trades emitted by the pass. -/
def processFills (fills : List Fill) : List PTrade := (runFills fills).2

/-- The accumulator still active after the pass. -/
def accAfter (fills : List Fill) : Option TradeAcc := (runFills fills).1

/-! ## Concrete instances used in counterexamples and witnesses -/

/-- A single winning trade. -/
def tWin : Trade := { t0 with pnl := 1 }

/-- A single losing trade. -/
def tLoss : Trade := { t0 with pnl := -2 }

/-- A winning trade whose fee cancels its pnl (net pnl 0). -/
def tWinFee : Trade := { t0 with pnl := 1, fees := 1 }

/-- A trade with a recorded maximum adverse excursion of 1. -/
def tMae : Trade := { t0 with mae := some 1 }

/-- A trade with a recorded maximum adverse excursion of exactly 0. -/
def tMaeZero : Trade := { t0 with mae := some 0 }

/-- Scenario A opening fill: Open Long 1.0@100 at t=0. -/
def fOpen : Fill :=
  { coin := "ETH", side := Side.B, dir := FillDir.openInc, px := 100, sz := 1,
    time := 0, startPosition := 0, closedPnl := 0, fee := 0 }

/-- Scenario A closing fill: Close Long 1.0@110, pnl 10, fee 1, at t=100;
the resulting position `1 + (-1) = 0` is flat. -/
def fClose : Fill :=
  { coin := "ETH", side := Side.A, dir := FillDir.closeDec, px := 110, sz := 1,
    time := 100, startPosition := 1, closedPnl := 10, fee := 1 }

/-- The accumulator after the Scenario A opening fill. -/
def acc0 : TradeAcc := startAcc fOpen

/-- Scenario D opening fill: Open Long 1.0@100 at t=0. -/
def dOpen : Fill :=
  { coin := "ETH", side := Side.B, dir := FillDir.openInc, px := 100, sz := 1,
    time := 0, startPosition := 0, closedPnl := 0, fee := 0 }

/-- Scenario D flip fill: Close Long 1.5@105, pnl 5, fee 0.2, at t=50; the
fill's size exceeds the open position, so the resulting position is
`1 - 1.5 = -0.5` — flipped to the short side. -/
def dFlip : Fill :=
  { coin := "ETH", side := Side.A, dir := FillDir.closeDec, px := 105,
    sz := 3/2, time := 50, startPosition := 1, closedPnl := 5, fee := 1/5 }

/-! ## General lemmas -/

theorem foldl_add_eq {α : Type} (f : α → ℚ) (l : List α) (s : ℚ) :
    l.foldl (fun s t => s + f t) s = s + (l.map f).sum := by
  induction l generalizing s with
  | nil => simp
  | cons a l ih => rw [List.foldl_cons, ih, List.map_cons, List.sum_cons]; ring

theorem foldl_add_id (l : List ℚ) (s : ℚ) :
    l.foldl (fun s v => s + v) s = s + l.sum := by
  simpa using foldl_add_eq id l s

theorem if_lt_max {α : Type} [LinearOrder α] (a b : α) :
    (if a < b then b else a) = max a b := by
  rcases le_or_lt b a with h | h
  · rw [if_neg (not_lt.mpr h), max_eq_left h]
  · rw [if_pos h, max_eq_right h.le]

theorem le_foldl_max {α : Type} [LinearOrder α] (l : List α) (a : α) :
    a ≤ l.foldl max a := by
  induction l generalizing a with
  | nil => simp
  | cons x xs ih => exact le_trans (le_max_left a x) (ih (max a x))

/-! ## Claim theorems -/

/-- C1: `computeStats` on the empty trade list returns the all-zero
statistics record — winRate 0, profitFactor 0 and every sum/aggregate
field 0.  The embedding is a total function (the source never throws on
`[]`), and in this exact-arithmetic embedding every field is a defined
number (each division the source performs on the empty input is guarded). -/
theorem computeStats_empty :
    computeStats [] =
      { netPnl := 0, realizedPnl := 0, totalFees := 0, winRate := 0, wins := 0,
        losses := 0, avgWin := 0, avgLoss := 0, profitFactor := 0, avgRR := 0,
        expectancy := 0, sharpe := 0, sortino := 0, maxDrawdown := 0,
        avgHoldMs := 0, longCount := 0, shortCount := 0, longPnl := 0,
        shortPnl := 0, bestTrade := 0, worstTrade := 0, longestWinStreak := 0,
        longestLossStreak := 0, avgMAE := 0, avgMFE := 0 } := by
  simp [computeStats, netPnlOf, totalPnlOf, totalFeesOf, winRateOf, winsOf,
    lossesOf, avgWinOf, avgLossOf, profitFactorOf, totalWinPnlOf, totalLossPnlOf,
    avgRROf, expectancyOf, sharpeOf, sortinoOf, stdRetOf, downStdOf, meanRetOf,
    varRetOf, downVarOf, dailyRetsOf, dailyMapOf, downRetsOf, maxDrawdownOf,
    sortByOpenTime, avgHoldMsOf, holdsOf, longCountOf, shortCountOf, longPnlOf,
    shortPnlOf, streaksOf, maxListQ, minListQ, avgMAEOf, avgMFEOf, maeTradesOf,
    mfeTradesOf]

/-- C2 counterexample: on the single winning trade `tWin` the source
returns `winRate = 100` (a percentage), not the ratio `wins / total = 1`
the claim states. -/
theorem winRate_not_ratio :
    (computeStats [tWin]).winRate ≠ winRateClaimed [tWin] := by
  have h1 : (computeStats [tWin]).winRate = 100 := by
    show winRateOf [tWin] = 100
    norm_num [winRateOf, winsOf, tWin, t0]
  have h2 : winRateClaimed [tWin] = 1 := by
    norm_num [winRateClaimed, tWin, t0]
  rw [h1, h2]; norm_num

/-- C2 amended: the `winRate` field equals 100 times the ratio of winning
trades to total trades (a percentage), and is 0 on the empty list. -/
theorem winRate_percent (trades : List Trade) :
    (computeStats trades).winRate = 100 * winRateClaimed trades := by
  show winRateOf trades = 100 * winRateClaimed trades
  rw [winRateOf, winRateClaimed, winsOf, List.countP_eq_length_filter]
  split_ifs with h
  · rw [mul_zero]
  · ring

/-- C7: `computeStats` is deterministic — equal trade lists produce equal
statistics records (the embedding is a pure function; the source's only
in-place operation, the sort, is applied to a copy `[...trades]`). -/
theorem computeStats_deterministic (ts1 ts2 : List Trade) (h : ts1 = ts2) :
    computeStats ts1 = computeStats ts2 := by rw [h]

theorem computeStats_deterministic_witness :
    computeStats [t0] = computeStats [t0] :=
  computeStats_deterministic [t0] [t0] rfl

/-- C8 counterexample: on the Scenario D stream (Open Long 1.0@100 then
Close Long 1.5@105) the pass finalizes one trade although the resulting
signed position `1 + (-1.5) = -0.5` is far outside the 1e-9 epsilon — a
position flip finalizes at a larger residual, refuting "never finalized
at a larger residual". -/
theorem flip_finalizes_beyond_eps :
    (processFills [dOpen, dFlip]).length = 1 ∧
      ¬ |dFlip.startPosition + signedSz dFlip| < eps := by
  have hnp : newPosition dFlip = -(1/2 : ℚ) := by
    norm_num [newPosition, signedSz, dFlip]
  have habs : |newPosition dFlip| = (1/2 : ℚ) := by
    rw [hnp, abs_neg]
    exact abs_of_pos (by norm_num)
  have hflat : ¬ |newPosition dFlip| < eps := by
    rw [habs, eps]
    norm_num
  have hflip : flipped dFlip := by
    rw [flipped, hnp]
    norm_num [dFlip]
  have h1 : processFill ((none : Option TradeAcc), ([] : List PTrade)) dOpen
      = (some (startAcc dOpen), []) := rfl
  have h2 : processFill (some (startAcc dOpen), ([] : List PTrade)) dFlip
      = (some (flipAcc dFlip),
          [finalizeAcc (closeInto (startAcc dOpen) dFlip |dFlip.startPosition|) dFlip.time]) := by
    have hdir : dFlip.dir = FillDir.closeDec := rfl
    simp only [processFill, hdir, if_neg hflat, if_pos hflip, List.nil_append]
  constructor
  · show (runFills [dOpen, dFlip]).2.length = 1
    rw [runFills, List.foldl_cons, h1, List.foldl_cons, h2, List.foldl_nil]
    rfl
  · show ¬ |newPosition dFlip| < eps
    exact hflat

/-- C8 amended: with an active accumulator, a closing fill finalizes a
trade (emitting exactly one) if and only if the resulting signed position
`startingPosition + signedDelta` either has magnitude below the 1e-9
epsilon (flat close, which clears the accumulator) or has crossed through
zero to the opposite side (position flip, which also opens a fresh
accumulator for the residual); while the position stays non-zero on the
same side nothing is emitted. -/
theorem close_finalizes_iff_flat_or_flip (a : TradeAcc) (out : List PTrade) (f : Fill)
    (hdir : f.dir = FillDir.closeDec) :
    ((processFill (some a, out) f).2.length = out.length + 1 ↔
      (|f.startPosition + signedSz f| < eps ∨ flipped f)) ∧
    (|f.startPosition + signedSz f| < eps → (processFill (some a, out) f).1 = none) ∧
    (¬ (|f.startPosition + signedSz f| < eps ∨ flipped f) →
      (processFill (some a, out) f).2 = out) := by
  by_cases h1 : |f.startPosition + signedSz f| < eps
  · refine ⟨?_, fun _ => ?_, fun hc => absurd (Or.inl h1) hc⟩ <;>
      simp [processFill, hdir, newPosition, h1]
  · by_cases h2 : flipped f
    · refine ⟨?_, fun hc => absurd hc h1, fun hc => absurd (Or.inr h2) hc⟩
      simp [processFill, hdir, newPosition, h1, h2]
    · refine ⟨?_, fun hc => absurd hc h1, fun _ => ?_⟩ <;>
        simp [processFill, hdir, newPosition, h1, h2]

theorem close_finalizes_iff_flat_or_flip_witness :
    (((processFill (some acc0, []) fClose).2.length = List.length ([] : List PTrade) + 1 ↔
      (|fClose.startPosition + signedSz fClose| < eps ∨ flipped fClose)) ∧
    (|fClose.startPosition + signedSz fClose| < eps →
      (processFill (some acc0, []) fClose).1 = none) ∧
    (¬ (|fClose.startPosition + signedSz fClose| < eps ∨ flipped fClose) →
      (processFill (some acc0, []) fClose).2 = ([] : List PTrade))) :=
  close_finalizes_iff_flat_or_flip acc0 [] fClose rfl

/-- Conformance with spec scenario D: the flip fill closes the first
trade (entry 100, exit 105, size 1.0, pnl and fee attributed wholly,
closeTime 50, MFE 5%) and leaves a fresh short accumulator of size 0.5
open at price 105, openTime 50. -/
theorem scenarioD_conformance :
    processFills [dOpen, dFlip]
      = [{ side := Side.B, entryPx := 100, exitPx := 105, size := 1, pnl := 5,
           fees := 1/5, openTime := 0, closeTime := 50, holdMs := 50,
           mae := 0, mfe := 1/20 }] ∧
    accAfter [dOpen, dFlip]
      = some { openTime := 50, side := Side.A, entryValue := 105/2,
               entrySize := 1/2, exitValue := 0, exitSize := 0, pnl := 0,
               fees := 0, mae := 0, mfe := 0 } := by
  have hnp : newPosition dFlip = -(1/2 : ℚ) := by
    norm_num [newPosition, signedSz, dFlip]
  have habs : |newPosition dFlip| = (1/2 : ℚ) := by
    rw [hnp, abs_neg]
    exact abs_of_pos (by norm_num)
  have hflat : ¬ |newPosition dFlip| < eps := by
    rw [habs, eps]
    norm_num
  have hflip : flipped dFlip := by
    rw [flipped, hnp]
    norm_num [dFlip]
  have hsp : |dFlip.startPosition| = (1 : ℚ) := by
    show |(1 : ℚ)| = 1
    exact abs_one
  have h1 : processFill ((none : Option TradeAcc), ([] : List PTrade)) dOpen
      = (some (startAcc dOpen), []) := rfl
  have h2 : processFill (some (startAcc dOpen), ([] : List PTrade)) dFlip
      = (some (flipAcc dFlip),
          [finalizeAcc (closeInto (startAcc dOpen) dFlip |dFlip.startPosition|) dFlip.time]) := by
    have hdir : dFlip.dir = FillDir.closeDec := rfl
    simp only [processFill, hdir, if_neg hflat, if_pos hflip, List.nil_append]
  have hrun : runFills [dOpen, dFlip]
      = (some (flipAcc dFlip),
          [finalizeAcc (closeInto (startAcc dOpen) dFlip |dFlip.startPosition|) dFlip.time]) := by
    rw [runFills, List.foldl_cons, h1, List.foldl_cons, h2, List.foldl_nil]
  constructor
  · show (runFills [dOpen, dFlip]).2 = _
    rw [hrun, hsp]
    norm_num [finalizeAcc, closeInto, trackExcursion, startAcc, dOpen, dFlip, max_def]
  · show (runFills [dOpen, dFlip]).1 = _
    rw [hrun]
    simp only [flipAcc]
    rw [habs]
    norm_num [dFlip]

/-- C9: a closing fill arriving while no accumulator is active (an orphan
close) is discarded: the pass emits no trade for it, continues with the
remaining fills, and the result is the same as if the fill were absent.
The pass is a total function, so no error is possible. -/
theorem orphan_close_skipped (pre post : List Fill) (f : Fill)
    (hdir : f.dir = FillDir.closeDec) (hacc : accAfter pre = none) :
    processFills (pre ++ f :: post) = processFills (pre ++ post) := by
  have h1 : (pre.foldl processFill ((none : Option TradeAcc), ([] : List PTrade))).1 = none :=
    hacc
  have hs : pre.foldl processFill ((none : Option TradeAcc), ([] : List PTrade))
      = (none, (pre.foldl processFill ((none : Option TradeAcc), ([] : List PTrade))).2) :=
    Prod.ext_iff.mpr ⟨h1, rfl⟩
  have hstep :
      processFill (none, (pre.foldl processFill ((none : Option TradeAcc), ([] : List PTrade))).2) f
        = (none, (pre.foldl processFill ((none : Option TradeAcc), ([] : List PTrade))).2) := by
    simp [processFill, hdir]
  unfold processFills runFills
  rw [List.foldl_append, List.foldl_append, List.foldl_cons, hs, hstep]

theorem orphan_close_skipped_witness :
    processFills ([] ++ fClose :: []) = processFills ([] ++ []) :=
  orphan_close_skipped [] [] fClose rfl rfl

/-- The simultaneous streak fold of the source is the product of two
independent longest-run folds: wins with predicate `0 < pnl`, losses with
the complementary predicate `pnl ≤ 0`. -/
theorem streak_fold (l : List Trade) (lws lls cw cl : ℕ) :
    l.foldl streakStep (lws, lls, cw, cl)
      = ((l.foldl (runStep (fun t => decide (0 < t.pnl))) (cw, lws)).2,
         (l.foldl (runStep (fun t => decide (t.pnl ≤ 0))) (cl, lls)).2,
         (l.foldl (runStep (fun t => decide (0 < t.pnl))) (cw, lws)).1,
         (l.foldl (runStep (fun t => decide (t.pnl ≤ 0))) (cl, lls)).1) := by
  induction l generalizing lws lls cw cl with
  | nil => rfl
  | cons t l ih =>
    by_cases h : 0 < t.pnl
    · simp only [List.foldl_cons, streakStep, runStep, decide_eq_true_eq,
        if_pos h, if_neg (not_le.mpr h)]
      rw [if_lt_max, ih]
    · simp only [List.foldl_cons, streakStep, runStep, decide_eq_true_eq,
        if_neg h, if_pos (not_lt.mp h)]
      rw [if_lt_max, ih]

/-- C4 counterexample: on the single trade `t0`, whose pnl is exactly 0,
the source reports a longest loss streak of 1, while the longest run of
trades with strictly negative pnl is 0. -/
theorem lossStreak_counts_zero_pnl :
    (computeStats [t0]).longestLossStreak
      ≠ longestRun (fun t => decide (t.pnl < 0)) (sortByOpenTime [t0]) := by
  decide

/-- C4 amended: walking the trades sorted by `open_time` ascending,
`longestWinStreak` is the longest run of consecutive trades with pnl > 0
and `longestLossStreak` is the longest run of consecutive trades with
pnl ≤ 0 (a zero-pnl trade extends the loss streak), the two tracked
independently. -/
theorem streaks_longest_runs (ts : List Trade) :
    (computeStats ts).longestWinStreak
        = longestRun (fun t => decide (0 < t.pnl)) (sortByOpenTime ts) ∧
      (computeStats ts).longestLossStreak
        = longestRun (fun t => decide (t.pnl ≤ 0)) (sortByOpenTime ts) := by
  have h := streak_fold (sortByOpenTime ts) 0 0 0 0
  constructor
  · show (streaksOf ts).1 = _
    rw [streaksOf, h]; rfl
  · show (streaksOf ts).2.1 = _
    rw [streaksOf, h]; rfl

theorem cumNet_append (l : List Trade) (t : Trade) :
    cumNet (l ++ [t]) = cumNet l + (t.pnl - t.fees) := by
  simp [cumNet]

theorem inits_append_singleton (l : List Trade) (t : Trade) :
    (l ++ [t]).inits = l.inits ++ [l ++ [t]] := by
  simp [List.inits_append]

theorem foldl_max_append (l : List ℚ) (a x : ℚ) :
    (l ++ [x]).foldl max a = max (l.foldl max a) x := by
  simp [List.foldl_append]

theorem peakSpec_append (l : List Trade) (t : Trade) :
    peakSpec (l ++ [t]) = max (peakSpec l) (cumNet (l ++ [t])) := by
  rw [peakSpec, inits_append_singleton, List.map_append, List.map_singleton,
    foldl_max_append, peakSpec]

theorem maxDrawdownSpec_append (l : List Trade) (t : Trade) :
    maxDrawdownSpec (l ++ [t])
      = max (maxDrawdownSpec l) (peakSpec (l ++ [t]) - cumNet (l ++ [t])) := by
  rw [maxDrawdownSpec, inits_append_singleton, List.map_append, List.map_singleton,
    foldl_max_append, maxDrawdownSpec]

/-- The drawdown loop computes, for any trade list, the triple of running
peak, maximal drawdown and cumulative net pnl. -/
theorem ddFold (l : List Trade) :
    l.foldl ddStep (0, 0, 0) = (peakSpec l, maxDrawdownSpec l, cumNet l) := by
  induction l using List.reverseRecOn with
  | nil => simp [peakSpec, maxDrawdownSpec, cumNet, List.inits]
  | append_singleton l t ih =>
    rw [List.foldl_append, List.foldl_cons, List.foldl_nil, ih]
    show ddStep (peakSpec l, maxDrawdownSpec l, cumNet l) t = _
    rw [maxDrawdownSpec_append, peakSpec_append, cumNet_append]
    simp only [ddStep]
    rw [if_lt_max, if_lt_max]

/-- C5: `maxDrawdown` equals, over the trades sorted ascending by
`open_time`, the maximum of (running peak of cumulative net pnl − current
cumulative net pnl), where net pnl is pnl minus fees; it is a monetary
difference and is non-negative. -/
theorem maxDrawdown_spec (ts : List Trade) :
    (computeStats ts).maxDrawdown = maxDrawdownSpec (sortByOpenTime ts) ∧
      0 ≤ (computeStats ts).maxDrawdown := by
  have h : maxDrawdownOf ts = maxDrawdownSpec (sortByOpenTime ts) := by
    rw [maxDrawdownOf, ddFold]
  refine ⟨h, ?_⟩
  show (0 : ℚ) ≤ maxDrawdownOf ts
  rw [h, maxDrawdownSpec]
  exact le_foldl_max _ 0

theorem sum_neg_of_all_neg (l : List ℚ) (hne : l ≠ []) (h : ∀ x ∈ l, x < 0) :
    l.sum < 0 := by
  induction l with
  | nil => exact absurd rfl hne
  | cons x xs ih =>
    cases xs with
    | nil => simpa using h x (by simp)
    | cons y ys =>
      have hx := h x (by simp)
      have hs := ih (by simp) (fun z hz => h z (List.mem_cons_of_mem x hz))
      rw [List.sum_cons]
      linarith

/-- C6: a trade is a win exactly when its raw (pre-fee) pnl is strictly
positive; `wins`/`losses` count that partition, `avgWin` is the mean
winning pnl, `avgLoss` the mean loss magnitude, and
`profitFactor = Σ winning pnl / |Σ losing pnl|`, 0 when there are no
losses. -/
theorem winloss_partition (ts : List Trade) :
    (∀ t, t ∈ winsOf ts ↔ t ∈ ts ∧ 0 < t.pnl) ∧
    (computeStats ts).wins = ts.countP (fun t => decide (0 < t.pnl)) ∧
    (computeStats ts).losses = ts.countP (fun t => decide (t.pnl < 0)) ∧
    (computeStats ts).avgWin =
      (if ts.countP (fun t => decide (0 < t.pnl)) = 0 then 0
       else ((ts.filter (fun t => decide (0 < t.pnl))).map Trade.pnl).sum
              / (ts.countP (fun t => decide (0 < t.pnl)) : ℚ)) ∧
    (computeStats ts).avgLoss =
      (if ts.countP (fun t => decide (t.pnl < 0)) = 0 then 0
       else |((ts.filter (fun t => decide (t.pnl < 0))).map Trade.pnl).sum|
              / (ts.countP (fun t => decide (t.pnl < 0)) : ℚ)) ∧
    (computeStats ts).profitFactor =
      (if ts.countP (fun t => decide (t.pnl < 0)) = 0 then 0
       else ((ts.filter (fun t => decide (0 < t.pnl))).map Trade.pnl).sum
              / |((ts.filter (fun t => decide (t.pnl < 0))).map Trade.pnl).sum|) := by
  refine ⟨?_, ?_, ?_, ?_, ?_, ?_⟩
  · intro t
    simp [winsOf, List.mem_filter]
  · show (winsOf ts).length = _
    rw [List.countP_eq_length_filter, winsOf]
  · show (lossesOf ts).length = _
    rw [List.countP_eq_length_filter, lossesOf]
  · show avgWinOf ts = _
    rw [avgWinOf, winsOf, List.countP_eq_length_filter, foldl_add_eq, zero_add]
  · show avgLossOf ts = _
    rw [avgLossOf, lossesOf, List.countP_eq_length_filter, foldl_add_eq, zero_add]
    split_ifs with h
    · rfl
    · rw [abs_div, Nat.abs_cast]
  · show profitFactorOf ts = _
    rw [profitFactorOf, totalLossPnlOf, totalWinPnlOf, lossesOf, winsOf,
      List.countP_eq_length_filter, foldl_add_eq, foldl_add_eq, zero_add, zero_add]
    by_cases hc : (ts.filter (fun t => decide (t.pnl < 0))).length = 0
    · have hnil : ts.filter (fun t => decide (t.pnl < 0)) = [] :=
        List.length_eq_zero.mp hc
      rw [if_pos hc, hnil]
      simp
    · have hne : (ts.filter (fun t => decide (t.pnl < 0))).map Trade.pnl ≠ [] := by
        intro hmap
        exact hc (by rw [List.map_eq_nil_iff.mp hmap]; rfl)
      have hall : ∀ x ∈ (ts.filter (fun t => decide (t.pnl < 0))).map Trade.pnl, x < 0 := by
        intro x hx
        rcases List.mem_map.mp hx with ⟨t, ht, rfl⟩
        exact of_decide_eq_true (List.mem_filter.mp ht).2
      have hs := sum_neg_of_all_neg _ hne hall
      rw [if_neg hc, if_pos (abs_pos.mpr (ne_of_lt hs))]

theorem excursion_list_eq (f : Trade → Option ℚ) (ts : List Trade) :
    ((ts.filter (fun t => match f t with | some m => decide (0 < m) | none => false)).map
        (fun t => (f t).getD 0))
      = (ts.filterMap f).filter (fun m => decide (0 < m)) := by
  induction ts with
  | nil => rfl
  | cons t ts ih =>
    cases hf : f t with
    | none => simp [List.filter_cons, List.filterMap_cons, hf, ih]
    | some m =>
      by_cases hm : 0 < m
      · simp [List.filter_cons, List.filterMap_cons, hf, hm, ih]
      · simp [List.filter_cons, List.filterMap_cons, hf, hm, ih]

theorem avgPos_eq (f : Trade → Option ℚ) (l : List Trade) :
    (if (l.filter (fun t => match f t with | some m => decide (0 < m) | none => false)).length = 0
      then (0 : ℚ)
      else (l.filter (fun t => match f t with | some m => decide (0 < m) | none => false)).foldl
              (fun s t => s + (f t).getD 0) 0
            / ((l.filter (fun t => match f t with | some m => decide (0 < m) | none => false)).length : ℚ))
      = avgPosExcursion f l := by
  have hl := excursion_list_eq f l
  have hlen : (l.filter (fun t => match f t with | some m => decide (0 < m) | none => false)).length
      = (posExcursions f l).length := by
    rw [posExcursions, ← hl, List.length_map]
  have hsum : (l.filter (fun t => match f t with | some m => decide (0 < m) | none => false)).foldl
      (fun s t => s + (f t).getD 0) 0 = (posExcursions f l).sum := by
    rw [foldl_add_eq, zero_add, posExcursions, hl]
  rw [avgPosExcursion, hlen, hsum]

/-- C10: `avgMAE` and `avgMFE` are means taken only over trades with a
non-null, strictly positive recorded excursion (a zero excursion is
excluded from numerator and denominator), so appending a trade whose
`mae` is exactly 0 leaves `avgMAE` unchanged. -/
theorem avgExcursions_positive_only (ts : List Trade) (t : Trade)
    (_hpos : ∃ u ∈ ts, ∃ m, u.mae = some m ∧ 0 < m) (ht : t.mae = some 0) :
    ((computeStats ts).avgMAE = avgPosExcursion Trade.mae ts ∧
      (computeStats ts).avgMFE = avgPosExcursion Trade.mfe ts) ∧
    (computeStats (ts ++ [t])).avgMAE = (computeStats ts).avgMAE := by
  have happ : maeTradesOf (ts ++ [t]) = maeTradesOf ts := by
    unfold maeTradesOf
    rw [List.filter_append]
    have hnil : [t].filter (fun t =>
        match t.mae with
        | some m => decide (0 < m)
        | none => false) = [] := by
      simp [List.filter_cons, ht]
    rw [hnil, List.append_nil]
  refine ⟨⟨?_, ?_⟩, ?_⟩
  · exact avgPos_eq Trade.mae ts
  · exact avgPos_eq Trade.mfe ts
  · show avgMAEOf (ts ++ [t]) = avgMAEOf ts
    unfold avgMAEOf
    rw [happ]

theorem avgExcursions_positive_only_witness :
    (((computeStats [tMae]).avgMAE = avgPosExcursion Trade.mae [tMae] ∧
      (computeStats [tMae]).avgMFE = avgPosExcursion Trade.mfe [tMae]) ∧
    (computeStats ([tMae] ++ [tMaeZero])).avgMAE = (computeStats [tMae]).avgMAE) :=
  avgExcursions_positive_only [tMae] tMaeZero
    ⟨tMae, by simp, 1, rfl, by norm_num⟩ rfl

/-! ## The daily-bucket correspondence for Sharpe (C3) -/

theorem foldl_firstStep_mem (l : List ℤ) :
    ∀ (acc : List ℤ) (k : ℤ),
      (k ∈ l.foldl (fun acc k => if k ∈ acc then acc else acc ++ [k]) acc) ↔
        (k ∈ acc ∨ k ∈ l) := by
  induction l with
  | nil => intro acc k; simp
  | cons a l ih =>
    intro acc k
    rw [List.foldl_cons, ih]
    by_cases ha : a ∈ acc
    · rw [if_pos ha]
      constructor
      · rintro (h | h)
        · exact Or.inl h
        · exact Or.inr (List.mem_cons_of_mem a h)
      · rintro (h | h)
        · exact Or.inl h
        · rcases List.mem_cons.mp h with rfl | h
          · exact Or.inl ha
          · exact Or.inr h
    · rw [if_neg ha]
      simp [List.mem_append, or_assoc]

theorem foldl_firstStep_nodup (l : List ℤ) :
    ∀ acc : List ℤ, acc.Nodup →
      (l.foldl (fun acc k => if k ∈ acc then acc else acc ++ [k]) acc).Nodup := by
  induction l with
  | nil => intro acc h; simpa
  | cons a l ih =>
    intro acc h
    rw [List.foldl_cons]
    by_cases ha : a ∈ acc
    · rw [if_pos ha]; exact ih acc h
    · rw [if_neg ha]
      refine ih _ ?_
      simp [List.nodup_append, h, ha]

theorem firstKeys_mem (l : List ℤ) (k : ℤ) : k ∈ firstKeys l ↔ k ∈ l := by
  rw [firstKeys, foldl_firstStep_mem]
  simp

theorem firstKeys_nodup (l : List ℤ) : (firstKeys l).Nodup :=
  foldl_firstStep_nodup l [] List.nodup_nil

theorem firstKeys_append (l : List ℤ) (k : ℤ) :
    firstKeys (l ++ [k])
      = if k ∈ firstKeys l then firstKeys l else firstKeys l ++ [k] := by
  rw [firstKeys, List.foldl_append]
  rfl

theorem addDaily_not_mem (m : List (ℤ × ℚ)) (k : ℤ) (v : ℚ)
    (h : k ∉ m.map Prod.fst) : addDaily m k v = m ++ [(k, v)] := by
  induction m with
  | nil => rfl
  | cons p rest ih =>
    obtain ⟨k', v'⟩ := p
    have hk : k' ≠ k := by
      intro he; exact h (by simp [he])
    have hrest : k ∉ rest.map Prod.fst := fun hh => h (by simp [hh])
    simp only [addDaily, if_neg hk, ih hrest, List.cons_append]

theorem addDaily_mem (keys : List ℤ) (S : ℤ → ℚ) (k0 : ℤ) (v : ℚ)
    (hnd : keys.Nodup) (hk : k0 ∈ keys) :
    addDaily (keys.map (fun k => (k, S k))) k0 v
      = keys.map (fun k => (k, if k = k0 then S k + v else S k)) := by
  induction keys with
  | nil => cases hk
  | cons a ks ih =>
    rw [List.map_cons, List.map_cons]
    simp only [addDaily]
    by_cases ha : a = k0
    · rw [if_pos ha]
      have hks : k0 ∉ ks := ha ▸ (List.nodup_cons.mp hnd).1
      congr 1
      · rw [if_pos ha]
      · symm
        apply List.map_congr_left
        intro k hkmem
        rw [if_neg (fun (he : k = k0) => hks (he ▸ hkmem))]
    · rw [if_neg ha]
      have hk0 : k0 ∈ ks := by
        rcases List.mem_cons.mp hk with h | h
        · exact absurd h.symm ha
        · exact h
      congr 1
      · rw [if_neg ha]
      · exact ih (List.Nodup.of_cons hnd) hk0

theorem daySum_append (f : Trade → ℚ) (ts : List Trade) (t : Trade) (k : ℤ) :
    daySum f (ts ++ [t]) k
      = daySum f ts k + if dayKey t = k then f t else 0 := by
  rw [daySum, daySum, List.filter_append, List.map_append, List.sum_append]
  congr 1
  by_cases h : dayKey t = k
  · simp [List.filter_cons, h]
  · simp [List.filter_cons, h]

theorem daySum_not_mem (f : Trade → ℚ) (ts : List Trade) (k : ℤ)
    (h : k ∉ ts.map dayKey) : daySum f ts k = 0 := by
  rw [daySum]
  have hnil : ts.filter (fun t => decide (dayKey t = k)) = [] := by
    rw [List.filter_eq_nil_iff]
    intro t ht
    simp only [decide_eq_true_eq]
    intro he
    exact h (List.mem_map.mpr ⟨t, ht, he⟩)
  rw [hnil]
  rfl

theorem dailyMapOf_append (ts : List Trade) (t : Trade) :
    dailyMapOf (ts ++ [t]) = addDaily (dailyMapOf ts) (dayKey t) t.pnl := by
  rw [dailyMapOf, dailyMapOf, List.foldl_append]
  rfl

/-- The `dailyMap` object equals, bucket for bucket and in first-insertion
order, the spec-side bucketing: one entry per distinct calendar day,
holding the sum of raw pnl of the trades of that day. -/
theorem dailyMapOf_eq (ts : List Trade) :
    dailyMapOf ts
      = (firstKeys (ts.map dayKey)).map (fun k => (k, daySum Trade.pnl ts k)) := by
  induction ts using List.reverseRecOn with
  | nil => rfl
  | append_singleton ts t ih =>
    rw [dailyMapOf_append, ih, List.map_append, List.map_singleton, firstKeys_append]
    by_cases hmem : dayKey t ∈ firstKeys (ts.map dayKey)
    · rw [if_pos hmem, addDaily_mem _ _ _ _ (firstKeys_nodup _) hmem]
      apply List.map_congr_left
      intro k hkmem
      rw [daySum_append]
      by_cases hk : k = dayKey t
      · rw [if_pos hk, if_pos hk.symm]
      · rw [if_neg hk, if_neg (fun he => hk he.symm), add_zero]
    · rw [if_neg hmem, addDaily_not_mem]
      · rw [List.map_append]
        congr 1
        · apply List.map_congr_left
          intro k hkmem
          rw [daySum_append]
          have hk : ¬(dayKey t = k) := fun he => hmem (he ▸ hkmem)
          rw [if_neg hk, add_zero]
        · rw [List.map_singleton, daySum_append,
            daySum_not_mem _ _ _ (fun h => hmem ((firstKeys_mem _ _).mpr h)),
            if_pos rfl, zero_add]
      · rw [List.map_map]
        simpa [Function.comp] using hmem

theorem dailyRetsOf_eq (ts : List Trade) :
    dailyRetsOf ts = bucketRets Trade.pnl ts := by
  rw [dailyRetsOf, dailyMapOf_eq, bucketRets, List.map_map]
  rfl

theorem meanRetOf_eq (ts : List Trade) :
    meanRetOf ts = meanSpec (bucketRets Trade.pnl ts) := by
  rw [meanRetOf, meanSpec, dailyRetsOf_eq, foldl_add_id, zero_add]

theorem varRetOf_eq (ts : List Trade) :
    varRetOf ts
      = ((bucketRets Trade.pnl ts).map
            (fun v => (v - meanSpec (bucketRets Trade.pnl ts)) ^ 2)).sum
          / ((bucketRets Trade.pnl ts).length : ℚ) := by
  rw [varRetOf, dailyRetsOf_eq, meanRetOf_eq, foldl_add_eq, zero_add]

/-- C3 amended: the `sharpe` field is obtained by bucketing trades by the
calendar day of `open_time` into daily sums of raw pnl (fees are not
subtracted), taking mean and population standard deviation of those daily
sums, substituting 1 for a zero standard deviation, and returning
`mean / stddev × √252`. -/
theorem sharpe_daily_raw_pnl (ts : List Trade) :
    (computeStats ts).sharpe = sharpeSpec Trade.pnl ts := by
  show sharpeOf ts = sharpeSpec Trade.pnl ts
  have hv : Real.sqrt ((varRetOf ts : ℚ) : ℝ) = psdSpec (bucketRets Trade.pnl ts) := by
    unfold psdSpec
    rw [varRetOf_eq]
  rw [sharpeOf, sharpeSpec, stdRetOf, meanRetOf_eq, hv]

/-- C3 counterexample: on the single trade `tWinFee` (pnl 1, fees 1) the
source's sharpe is `√252` (raw daily pnl 1), while the claimed net-pnl
bucketing (daily sum 0) gives sharpe 0. -/
theorem sharpe_not_net :
    (computeStats [tWinFee]).sharpe ≠ sharpeSpec (fun t => t.pnl - t.fees) [tWinFee] := by
  have hkey : dayKey tWinFee = 0 := by
    show Int.fdiv 0 86400000 = 0
    rfl
  have hrets : dailyRetsOf [tWinFee] = [1] := by
    rw [dailyRetsOf, dailyMapOf]
    norm_num [addDaily, hkey, tWinFee, t0]
  have hmean : meanRetOf [tWinFee] = 1 := by
    rw [meanRetOf, hrets]
    norm_num
  have hvar : varRetOf [tWinFee] = 0 := by
    rw [varRetOf, hrets, hmean]
    norm_num
  have hstd : stdRetOf [tWinFee] = 1 := by
    rw [stdRetOf, hvar]
    norm_num [Real.sqrt_zero]
  have hcode : (computeStats [tWinFee]).sharpe = Real.sqrt 252 := by
    show sharpeOf [tWinFee] = Real.sqrt 252
    rw [sharpeOf, hstd, hmean]
    norm_num
  have hkeys : firstKeys ([tWinFee].map dayKey) = [0] := by
    norm_num [firstKeys, hkey]
  have hp : tWinFee.pnl = 1 := rfl
  have hf : tWinFee.fees = 1 := rfl
  have hbr : bucketRets (fun t => t.pnl - t.fees) [tWinFee] = [0] := by
    rw [bucketRets, hkeys]
    norm_num [daySum, hkey, List.filter_cons, hp, hf]
  have hspec : sharpeSpec (fun t => t.pnl - t.fees) [tWinFee] = 0 := by
    rw [sharpeSpec, hbr]
    norm_num [meanSpec, psdSpec, Real.sqrt_zero]
  rw [hcode, hspec]
  exact Real.sqrt_ne_zero'.mpr (by norm_num)

end TradingSuite
